import Mathlib

/-!
# Formal model of the OR-Tools shift-schedule optimizer

This file is a shallow embedding, in Lean 4, of the constraint compiler of
the shift-schedule optimizer implemented in
src/python-ortools-service/scheduler.py (class ShiftScheduleOptimizer).

Modelling conventions:
* Date strings (YYYY-MM-DD) are compared lexicographically in the source,
  which on equal-length date strings coincides with chronological order;
  dates are therefore modelled as natural-number codes, and the string
  comparisons date < start_date, date > end_date become comparisons on Nat.
* Staff ids are modelled as natural numbers.
* CP-SAT boolean decision variables x[staff, date, kind] are modelled by an
  assignment function Nat -> Nat -> Shift -> Bool; the auxiliary boolean
  variables the compiler creates (violation indicators, any_member_off) are
  modelled by a second assignment AuxId -> Bool.
* The constraints the compiler sends to the model are reified into the
  inductive type Constr, with a decidable satisfaction function satC that
  mirrors the semantics of the corresponding cp_model calls
  (AddExactlyOne, Add(. == .), Add(...).OnlyEnforceIf(...), AddMaxEquality,
  AddBoolOr, and the two-sided reification of sum bounds).
* Python float arithmetic in the monthly-limit pass
  (int(working_days / 4.25), int(max_off * 1.5), and
  int(max_off * working_days / total_days)) is modelled by exact rational
  floors realised as natural-number division; for the magnitudes involved
  the float computation and the exact floor coincide.
-/

namespace Scheduler

/-- The four internal shift kinds (SHIFT_WORK = 0, SHIFT_OFF = 1,
SHIFT_EARLY = 2, SHIFT_LATE = 3 in the source). -/
inductive Shift where
  | work
  | off
  | early
  | late
deriving DecidableEq, Repr

/-- SHIFT_SYMBOLS: the canonical output glyph of each shift kind. -/
def SHIFT_SYMBOLS : Shift → String
  | .work => ""
  | .off => "×"
  | .early => "△"
  | .late => "◇"

/-- SYMBOL_TO_SHIFT: the accepted input glyph table of scheduler.py.
The source dictionary lists several glyphs twice (once as a UTF-8 literal
and once as an escape); both spellings denote the same string, so the
duplicate keys collapse here exactly as they do in the Python dict. -/
def SYMBOL_TO_SHIFT (g : String) : Option Shift :=
  if g = "×" ∨ g = "x" ∨ g = "X" then some .off
  else if g = "△" ∨ g = "s" ∨ g = "S" then some .early
  else if g = "◇" then some .late
  else if g = "○" ∨ g = "" ∨ g = "★" ∨ g = "☆" ∨ g = "●" ∨ g = "◎" ∨
       g = "▣" ∨ g = "⊘" then some .work
  else none

/-- A Python value as it can appear in the loosely typed constraint
payloads (the early-shift preference entries hold booleans in practice but
the code compares whatever arrives with True). -/
inductive PyVal where
  | pybool (b : Bool)
  | pyint (n : Int)
  | pystr (s : String)
deriving DecidableEq, Repr

/-- Python equality test v == True.  In Python bool is a subtype of int and
True == 1, so the comparison is numeric: the boolean True and the numbers
equal to 1 compare equal to True, every string compares unequal. -/
def pyEqTrue : PyVal → Bool
  | .pybool b => b
  | .pyint n => n == 1
  | .pystr _ => false

/-- Python truthiness of a value (used only to state theorems about which
truthy values the preference lookup accepts). -/
def pyTruthy : PyVal → Bool
  | .pybool b => b
  | .pyint n => !(n == 0)
  | .pystr s => !(s == "")

/-- A staff member after input parsing: id, status tag, and the optional
employment window recorded in staff_start_dates / staff_end_dates.  The
source records the start date only when it is on or after the first horizon
date; for the horizon dates that the compiler ever queries, keeping the raw
start date is equivalent. -/
structure Staff where
  sid : Nat
  status : String
  startP : Option Nat
  endP : Option Nat
deriving DecidableEq, Repr

/-- _staff_works_on_date: the staff member is employed on the date unless
the date is strictly before the recorded start or strictly after the
recorded end. -/
def worksOnDate (startP endP : Option Nat) (d : Nat) : Bool :=
  (match startP with
   | none => true
   | some s => !(decide (d < s))) &&
  (match endP with
   | none => true
   | some e => !(decide (e < d)))

/-- A calendar rule entry: the two orthogonal flags of a calendarRules
record (their Python truthiness). -/
structure CalRule where
  mustDayOff : Bool
  mustWork : Bool
deriving DecidableEq, Repr

/-- The early-shift preference record of one staff member: per-date entries
plus the optional default entry. -/
structure EarlyPrefs where
  perDate : List (Nat × PyVal)
  dflt : Option PyVal
deriving DecidableEq, Repr

/-- A backup assignment (staffId, groupId, isActive); a missing or falsy
staff or group id is modelled as none (the source falls back over
staffId / staff_id spellings before giving up). -/
structure BackupAssign where
  staffId : Option Nat
  groupId : Option Nat
  isActive : Bool
deriving DecidableEq, Repr

/-- A staff group: id and member staff ids. -/
structure StaffGroup where
  gid : Nat
  members : List Nat
deriving DecidableEq, Repr

/-- The slice of the optimization input consumed by the passes modelled in
this file.  holidays is the date set returned by the Japanese-holiday
oracle; backupCoverageIsHard is ortoolsConfig.hardConstraints.backupCoverage
(default true); penaltyBackupCoverage is PENALTY_WEIGHTS for
backup_coverage. -/
structure SchedInput where
  staff : List Staff
  dates : List Nat
  calendarRules : List (Nat × CalRule)
  earlyPrefs : List (Nat × EarlyPrefs)
  prefilled : List (Nat × List (Nat × String))
  staffGroups : List StaffGroup
  backupAssignments : List BackupAssign
  holidays : List Nat
  backupCoverageIsHard : Bool
  penaltyBackupCoverage : Nat
deriving Repr

/-- Association-list lookup keyed by a natural number (Python dict lookup;
dict keys are unique, so first match is the dict entry). -/
def alookup {α : Type} (k : Nat) (l : List (Nat × α)) : Option α :=
  (l.find? (fun p => p.1 == k)).map (fun p => p.2)

/-- Association-list lookup keyed by a (staff, date) pair. -/
def plookup {α : Type} (k : Nat × Nat) (l : List ((Nat × Nat) × α)) : Option α :=
  (l.find? (fun p => p.1.1 == k.1 && p.1.2 == k.2)).map (fun p => p.2)

/-- _staff_works_on_date lifted to an input: looks the staff record up in
the roster (ids outside the roster are never queried by the passes). -/
def staffWorks (inp : SchedInput) (sid d : Nat) : Bool :=
  match inp.staff.find? (fun st => st.sid == sid) with
  | some st => worksOnDate st.startP st.endP d
  | none => false

/-- _has_shift_var: a shift variable exists for (staff, date) exactly when
the date is in the horizon, the staff is in the roster and the staff is
employed on the date (this is the condition under which _create_variables
allocates the four booleans). -/
def hasShiftVar (inp : SchedInput) (sid d : Nat) : Bool :=
  inp.dates.contains d &&
    (match inp.staff.find? (fun st => st.sid == sid) with
     | some st => worksOnDate st.startP st.endP d
     | none => false)

/-- Identities of the auxiliary boolean variables the compiler creates.
Each constructor mirrors one NewBoolVar naming scheme of the source; the
anyOff / cover family is indexed by the position of the backup assignment in
the input list so that distinct NewBoolVar calls stay distinct variables. -/
inductive AuxId where
  | anyOff (idx d : Nat)
  | notEarly (s d : Nat)
  | cover (idx d : Nat)
  | coverEarly (idx d : Nat)
  | coverLate (idx d : Nat)
  | patXX (s d : Nat)
  | patSX (s d : Nat)
  | patXS (s d : Nat)
  | patSS (s d : Nat)
  | prefAdj (s dFrom dTo : Nat)
deriving DecidableEq, Repr

/-- A literal over the decision variables: either an auxiliary boolean or a
shift boolean, required to take the given value. -/
inductive Lit where
  | auxL (x : AuxId) (v : Bool)
  | shiftL (s d : Nat) (k : Shift) (v : Bool)
deriving DecidableEq, Repr

/-- The constraints the compiler adds to the CP-SAT model, reified.
impC conds concl models model.Add(concl).OnlyEnforceIf(conds) (with
conds = [] a plain equality); maxEqOff models
AddMaxEquality(aux, member off vars); orC models AddBoolOr; the pair
constraints model the two-sided reification
Add(sum le 1).OnlyEnforceIf(aux == xv) / Add(sum ge 2).OnlyEnforceIf(...)
used for the adjacent-pattern indicators. -/
inductive Constr where
  | exactlyOne (s d : Nat)
  | impC (conds : List Lit) (concl : Lit)
  | maxEqOff (x : AuxId) (d : Nat) (members : List Nat)
  | orC (lits : List Lit)
  | pairLe1If (x : AuxId) (xv : Bool) (s d1 : Nat) (k1 : Shift) (d2 : Nat) (k2 : Shift)
  | pairGe2If (x : AuxId) (xv : Bool) (s d1 : Nat) (k1 : Shift) (d2 : Nat) (k2 : Shift)
deriving DecidableEq, Repr

/-- A plain hard equality x[s,d,k] == v (model.Add with no enforcement
literal). -/
def hardEq (s d : Nat) (k : Shift) (v : Bool) : Constr :=
  .impC [] (.shiftL s d k v)

/-- An assignment of the shift decision variables. -/
def Assign : Type := Nat → Nat → Shift → Bool

/-- An assignment of the auxiliary boolean variables. -/
def AuxAssign : Type := AuxId → Bool

/-- Number of shift kinds selected for (s, d) under an assignment. -/
def shiftCount (a : Assign) (s d : Nat) : Nat :=
  (if a s d .work then 1 else 0) + (if a s d .off then 1 else 0) +
  (if a s d .early then 1 else 0) + (if a s d .late then 1 else 0)

/-- Truth of a literal under an assignment pair. -/
def litSat (a : Assign) (aux : AuxAssign) : Lit → Bool
  | .auxL x v => aux x == v
  | .shiftL s d k v => a s d k == v

/-- Count of the two pattern cells that are selected. -/
def pairCount (a : Assign) (s d1 : Nat) (k1 : Shift) (d2 : Nat) (k2 : Shift) : Nat :=
  (if a s d1 k1 then 1 else 0) + (if a s d2 k2 then 1 else 0)

/-- Satisfaction of one reified constraint. -/
def satC (a : Assign) (aux : AuxAssign) : Constr → Bool
  | .exactlyOne s d => shiftCount a s d == 1
  | .impC conds concl => !(conds.all (litSat a aux)) || litSat a aux concl
  | .maxEqOff x d ms => aux x == ms.any (fun m => a m d .off)
  | .orC lits => lits.any (litSat a aux)
  | .pairLe1If x xv s d1 k1 d2 k2 =>
      !(aux x == xv) || decide (pairCount a s d1 k1 d2 k2 ≤ 1)
  | .pairGe2If x xv s d1 k1 d2 k2 =>
      !(aux x == xv) || decide (2 ≤ pairCount a s d1 k1 d2 k2)

/-- Satisfaction of a list of constraints. -/
def satAll (a : Assign) (aux : AuxAssign) (cs : List Constr) : Bool :=
  cs.all (satC a aux)

/-- A soft-violation record: the indicator variable and its positive
penalty weight, as appended to self.violation_vars (the free-text
description is dropped). -/
structure Viol where
  aux : AuxId
  weight : Nat
deriving DecidableEq, Repr

/-! ## The compiler passes

The passes below mirror, in source order, _add_basic_constraints,
_add_prefilled_constraints, _add_calendar_rules and
_add_backup_staff_constraints.  Where the source emits hard constraints and
soft-violation records interleaved inside one loop, the model collects them
into separate lists; the collected multisets per kind are unchanged. -/

/-- _add_basic_constraints: exactly one shift kind per employed
(staff, date); dates without shift variables are skipped. -/
def basicPass (inp : SchedInput) : List Constr :=
  inp.staff.flatMap (fun st =>
    inp.dates.filterMap (fun d =>
      if worksOnDate st.startP st.endP d then some (.exactlyOne st.sid d) else none))

/-- The backup staff ids collected at the top of
_add_prefilled_constraints from the active backup assignments (pre-filled
cells of these staff are ignored). -/
def backupIdsEarly (inp : SchedInput) : List Nat :=
  inp.backupAssignments.filterMap (fun a => if a.isActive then a.staffId else none)

/-- Python str.strip(): drop leading and trailing whitespace (modelled on
the character list of the string). -/
def pyStrip (s : String) : String :=
  String.mk (((s.data.dropWhile Char.isWhitespace).reverse.dropWhile
    Char.isWhitespace).reverse)

/-- Processing of one pre-filled cell (inner loop of
_add_prefilled_constraints): skip dates outside the horizon, skip blank
symbols, map the stripped symbol through SYMBOL_TO_SHIFT (unknown symbols
are treated as WORK), skip cells without a shift variable; otherwise emit
the hard equality and record the stripped symbol. -/
def prefillCell (inp : SchedInput) (sid : Nat) (cell : Nat × String) :
    Option (Constr × ((Nat × Nat) × String)) :=
  if !(inp.dates.contains cell.1) then none
  else if pyStrip cell.2 == "" then none
  else if !(hasShiftVar inp sid cell.1) then none
  else some (hardEq sid cell.1 ((SYMBOL_TO_SHIFT (pyStrip cell.2)).getD Shift.work) true,
    ((sid, cell.1), pyStrip cell.2))

/-- The list of processed pre-filled cells, each paired with its emitted
hard constraint: the outer loop of _add_prefilled_constraints, skipping
staff named by an active backup assignment and staff outside the
roster wholesale. -/
def prefillItems (inp : SchedInput) : List (Constr × ((Nat × Nat) × String)) :=
  inp.prefilled.flatMap (fun p =>
    if (backupIdsEarly inp).contains p.1 then []
    else if !((inp.staff.map (fun st => st.sid)).contains p.1) then []
    else p.2.filterMap (prefillCell inp p.1))

/-- _add_prefilled_constraints: the emitted hard equalities and the
prefilled_symbols map. -/
def prefilledPass (inp : SchedInput) : List Constr × List ((Nat × Nat) × String) :=
  ((prefillItems inp).map (fun it => it.1), (prefillItems inp).map (fun it => it.2))

/-- The early-shift preference lookup of _add_calendar_rules: the per-date
entry is consulted first, then the default entry, each compared with True
by Python equality. -/
def hasEarlyPref (prefs : List (Nat × EarlyPrefs)) (sid d : Nat) : Bool :=
  match alookup sid prefs with
  | none => false
  | some p =>
    match alookup d p.perDate with
    | some v => pyEqTrue v
    | none =>
      match p.dflt with
      | some v => pyEqTrue v
      | none => false

/-- Output of the calendar pass: hard constraints, soft violations, and the
two tracking sets calendar_off_dates / calendar_work_dates. -/
structure CalOut where
  hards : List Constr
  viols : List Viol
  offDates : List Nat
  workDates : List Nat
deriving Repr

/-- Processing of one calendarRules entry.  On a must_day_off date, staff
with an early-shift preference get the reified weight-1000 incentive toward
Early (the not_early indicator is defined by the two one-sided
implications, exactly as in the source); every other staff with a shift
variable gets the hard equality to Off.  On a must_work date every staff
with a shift variable gets the hard equality to Work. -/
def calendarDateOut (inp : SchedInput) (d : Nat) (rule : CalRule) : CalOut :=
  if !(inp.dates.contains d) then ⟨[], [], [], []⟩
  else if rule.mustDayOff then
    let emp := inp.staff.filter (fun st => hasShiftVar inp st.sid d)
    let withPref := emp.filter (fun st => hasEarlyPref inp.earlyPrefs st.sid d)
    let withoutPref := emp.filter (fun st => !(hasEarlyPref inp.earlyPrefs st.sid d))
    ⟨withPref.flatMap (fun st =>
        [.impC [.auxL (.notEarly st.sid d) true] (.shiftL st.sid d .early false),
         .impC [.auxL (.notEarly st.sid d) false] (.shiftL st.sid d .early true)]) ++
      withoutPref.map (fun st => hardEq st.sid d .off true),
     withPref.map (fun st => Viol.mk (.notEarly st.sid d) 1000),
     [d], []⟩
  else if rule.mustWork then
    ⟨(inp.staff.filter (fun st => hasShiftVar inp st.sid d)).map
        (fun st => hardEq st.sid d .work true),
     [], [], [d]⟩
  else ⟨[], [], [], []⟩

/-- _add_calendar_rules over all calendarRules entries. -/
def calendarPass (inp : SchedInput) : CalOut :=
  ⟨inp.calendarRules.flatMap (fun p => (calendarDateOut inp p.1 p.2).hards),
   inp.calendarRules.flatMap (fun p => (calendarDateOut inp p.1 p.2).viols),
   inp.calendarRules.flatMap (fun p => (calendarDateOut inp p.1 p.2).offDates),
   inp.calendarRules.flatMap (fun p => (calendarDateOut inp p.1 p.2).workDates)⟩

/-- The stored type of a backup_unavailable_slots entry: the holiday marker
or the coverage marker with its any_member_off variable. -/
inductive SlotTy where
  | holiday
  | coverage (idx d : Nat)
deriving DecidableEq, Repr

/-- Output of the backup pass. -/
structure BackupOut where
  hards : List Constr
  viols : List Viol
  backupIds : List Nat
  slots : List ((Nat × Nat) × SlotTy)
deriving Repr

/-- The per-date body of the backup-assignment loop.  Calendar-off dates
and dates on which the backup has no shift variable are skipped.  The
any_member_off variable is defined by AddMaxEquality over the off variables
of the employed valid members.  In HARD mode the three conditional
equalities force the backup to plain Work whenever coverage is needed; in
SOFT mode the three reified violation indicators are created instead with
weights w, w/2, w/2.  On a holiday the hard equality backup-Off is added
and the holiday slot is recorded, otherwise the coverage slot is
recorded. -/
def backupDateEmit (inp : SchedInput) (offDates : List Nat) (hard : Bool)
    (w : Nat) (idx b : Nat) (validMembers : List Nat) (d : Nat) :
    List Constr × List Viol :=
  if offDates.contains d then ([], [])
  else if !(staffWorks inp b d) || !(hasShiftVar inp b d) then ([], [])
  else
    let memberIds := validMembers.filter
      (fun m => staffWorks inp m d && hasShiftVar inp m d)
    let maxC : Constr := .maxEqOff (.anyOff idx d) d memberIds
    let covCs : List Constr :=
      if hard then
        [.impC [.auxL (.anyOff idx d) true] (.shiftL b d .work true),
         .impC [.auxL (.anyOff idx d) true] (.shiftL b d .early false),
         .impC [.auxL (.anyOff idx d) true] (.shiftL b d .late false)]
      else
        [.impC [.auxL (.anyOff idx d) false] (.auxL (.cover idx d) false),
         .impC [.auxL (.anyOff idx d) true, .shiftL b d .work true] (.auxL (.cover idx d) false),
         .orC [.auxL (.anyOff idx d) false, .shiftL b d .work true, .auxL (.cover idx d) true],
         .impC [.auxL (.anyOff idx d) false] (.auxL (.coverEarly idx d) false),
         .impC [.auxL (.anyOff idx d) true, .shiftL b d .early false]
           (.auxL (.coverEarly idx d) false),
         .impC [.auxL (.anyOff idx d) true, .shiftL b d .early true]
           (.auxL (.coverEarly idx d) true),
         .impC [.auxL (.anyOff idx d) false] (.auxL (.coverLate idx d) false),
         .impC [.auxL (.anyOff idx d) true, .shiftL b d .late false]
           (.auxL (.coverLate idx d) false),
         .impC [.auxL (.anyOff idx d) true, .shiftL b d .late true]
           (.auxL (.coverLate idx d) true)]
    let covVs : List Viol :=
      if hard then []
      else [⟨.cover idx d, w⟩, ⟨.coverEarly idx d, w / 2⟩, ⟨.coverLate idx d, w / 2⟩]
    if inp.holidays.contains d then
      (maxC :: covCs ++ [hardEq b d .off true], covVs)
    else
      (maxC :: covCs, covVs)

/-- The backup_unavailable_slots entry the per-date body records: the
holiday marker on holidays, otherwise the coverage marker; nothing on
calendar-off dates and dates without a backup shift variable (same skip
chain as backupDateEmit). -/
def backupDateSlot (inp : SchedInput) (offDates : List Nat) (idx b : Nat) (d : Nat) :
    List ((Nat × Nat) × SlotTy) :=
  if offDates.contains d then []
  else if !(staffWorks inp b d) || !(hasShiftVar inp b d) then []
  else if inp.holidays.contains d then [((b, d), SlotTy.holiday)]
  else [((b, d), SlotTy.coverage idx d)]

/-- The valid members of a covered group: the group members present in
the current staff roster. -/
def validMembersOf (inp : SchedInput) (grp : StaffGroup) : List Nat :=
  grp.members.filter (fun m => inp.staff.any (fun st => st.sid == m))

/-- Processing of one backup assignment (with its position in the input
list): inactive assignments, assignments whose backup staff is not in the
roster, unknown groups and groups with no valid members are skipped;
otherwise the backup id is recorded and every horizon date is processed. -/
def backupAssignEmit (inp : SchedInput) (offDates : List Nat) (hard : Bool)
    (w : Nat) (idx : Nat) (a : BackupAssign) : BackupOut :=
  if !a.isActive then ⟨[], [], [], []⟩
  else
    match a.staffId with
    | none => ⟨[], [], [], []⟩
    | some b =>
      if !(inp.staff.any (fun st => st.sid == b)) then ⟨[], [], [], []⟩
      else
        match a.groupId with
        | none => ⟨[], [], [], []⟩
        | some g =>
          match inp.staffGroups.find? (fun gr => gr.gid == g) with
          | none => ⟨[], [], [], []⟩
          | some grp =>
            if (validMembersOf inp grp).isEmpty then ⟨[], [], [], []⟩
            else
              ⟨inp.dates.flatMap
                  (fun d => (backupDateEmit inp offDates hard w idx b
                    (validMembersOf inp grp) d).1),
               inp.dates.flatMap
                  (fun d => (backupDateEmit inp offDates hard w idx b
                    (validMembersOf inp grp) d).2),
               [b],
               inp.dates.flatMap (backupDateSlot inp offDates idx b)⟩

/-- _add_backup_staff_constraints over all assignments.  The pass does
nothing when either the assignment list or the group list is empty. -/
def backupPass (inp : SchedInput) (offDates : List Nat) : BackupOut :=
  if inp.backupAssignments.isEmpty || inp.staffGroups.isEmpty then ⟨[], [], [], []⟩
  else
    ⟨inp.backupAssignments.enum.flatMap
        (fun p => (backupAssignEmit inp offDates inp.backupCoverageIsHard
          inp.penaltyBackupCoverage p.1 p.2).hards),
     inp.backupAssignments.enum.flatMap
        (fun p => (backupAssignEmit inp offDates inp.backupCoverageIsHard
          inp.penaltyBackupCoverage p.1 p.2).viols),
     inp.backupAssignments.enum.flatMap
        (fun p => (backupAssignEmit inp offDates inp.backupCoverageIsHard
          inp.penaltyBackupCoverage p.1 p.2).backupIds),
     inp.backupAssignments.enum.flatMap
        (fun p => (backupAssignEmit inp offDates inp.backupCoverageIsHard
          inp.penaltyBackupCoverage p.1 p.2).slots)⟩

/-- The model state after the first four compiler passes (basic,
pre-filled, calendar, backup), in their execution order inside
optimize_schedule. -/
structure Compiled where
  hards : List Constr
  viols : List Viol
  prefSymbols : List ((Nat × Nat) × String)
  offDates : List Nat
  workDates : List Nat
  backupIds : List Nat
  slots : List ((Nat × Nat) × SlotTy)
deriving Repr

/-- Running the first four passes.  Later passes only add further
constraints; every schedule returned by the optimizer satisfies at least
the hard constraints collected here. -/
def compileCore (inp : SchedInput) : Compiled :=
  let basics := basicPass inp
  let pre := prefilledPass inp
  let cal := calendarPass inp
  let b := backupPass inp cal.offDates
  ⟨basics ++ pre.1 ++ cal.hards ++ b.hards,
   cal.viols ++ b.viols,
   pre.2, cal.offDates, cal.workDates, b.backupIds, b.slots⟩

/-- The shift kind the extraction loop selects: the first of the four kinds
(in code order 0..3) whose variable is 1, mirroring the break in
_extract_solution. -/
def chosenShift (a : Assign) (s d : Nat) : Option Shift :=
  [Shift.work, Shift.off, Shift.early, Shift.late].find? (fun k => a s d k)

/-- The glyph _extract_solution writes for one cell: cells without a shift
variable are skipped; pre-filled cells echo the stored symbol verbatim;
backup slots output the unavailable glyph on holiday slots and the explicit
work glyph on coverage slots whose chosen kind is Work; every other cell
gets the canonical glyph of the chosen kind. -/
def extractGlyph (inp : SchedInput) (c : Compiled) (a : Assign) (s d : Nat) :
    Option String :=
  if !(hasShiftVar inp s d) then none
  else
    match plookup (s, d) c.prefSymbols with
    | some sym => some sym
    | none =>
      match chosenShift a s d with
      | none => none
      | some k =>
        match plookup (s, d) c.slots with
        | some SlotTy.holiday => some "⊘"
        | some (SlotTy.coverage _ _) =>
            if k == Shift.work then some "○" else some (SHIFT_SYMBOLS k)
        | none => some (SHIFT_SYMBOLS k)

/-! ## Monthly limits (_add_monthly_limits) -/

/-- The monthlyLimit configuration record.  The claims under study use
integer counts; int(floor(float(n))) and int(ceil(float(n))) are the
identity on naturals, so the counts are modelled as naturals. -/
structure MonthlyCfg where
  minCount : Option Nat
  maxCount : Option Nat
  excludeCalendarRules : Bool
  isHard : Bool
deriving DecidableEq, Repr

/-- The global (min_off, max_off) pair of _add_monthly_limits after the
defaults (0 / 999), the sanity clamps against the number of flexible days,
and the min-not-above-max fix. -/
def monthlyGlobal (cfg : MonthlyCfg) (numFlexible : Nat) : Nat × Nat :=
  let minOff := cfg.minCount.getD 0
  let maxOff := cfg.maxCount.getD 999
  let minOff := min minOff numFlexible
  let maxOff := min maxOff numFlexible
  let minOff := if maxOff < minOff then maxOff else minOff
  (minOff, maxOff)

/-- The per-staff scaled star-off-equivalent constant
(prefilled_star_equiv_by_staff): 2 for every pre-filled star glyph of the
staff on an eligible date. -/
def starEquivOf (prefSyms : List ((Nat × Nat) × String)) (excludeCal : Bool)
    (flexible : List Nat) (sid : Nat) : Nat :=
  (prefSyms.filter (fun p => p.1.1 == sid &&
      (!excludeCal || flexible.contains p.1.2) &&
      (p.2 == "★" || p.2 == "☆"))).length * 2

/-- The monthly constraint emitted for one staff member: the dates whose
off/early variables are summed, the star constant added to the sum, the
scaled bounds, and the hard/soft mode. -/
structure MonthlyBound where
  sid : Nat
  countedDates : List Nat
  starScaled : Nat
  minScaled : Nat
  maxScaled : Nat
  isHard : Bool
deriving DecidableEq, Repr

/-- The body of the per-staff loop of _add_monthly_limits: global bounds,
prorating for staff with a partial employment window
(min = int(working_days / 4.25), modelled as the exact floor (4 w) / 17;
max = max(min + 1, int(max_off * working_days / total_days)), modelled as
the exact floor), and the backup override
(min = 0, max = int(max_off * 1.5), modelled as the exact floor
(3 max_off) / 2), everything scaled by 2 for the integer
off-equivalent arithmetic. -/
def monthlyStaffBound (inp : SchedInput) (cfg : MonthlyCfg)
    (offDates backupIds : List Nat) (prefSyms : List ((Nat × Nat) × String))
    (st : Staff) : MonthlyBound :=
  let flexible := inp.dates.filter (fun d => !(offDates.contains d))
  let g := monthlyGlobal cfg flexible.length
  let minScaled := g.1 * 2
  let maxScaled := g.2 * 2
  let isBackup := backupIds.contains st.sid
  let w := (inp.dates.filter (fun d => worksOnDate st.startP st.endP d)).length
  let total := inp.dates.length
  let prorated :=
    if st.startP.isSome || st.endP.isSome then
      if w < total && 0 < w then
        let calcMin := (4 * w) / 17
        let calcMax := max (calcMin + 1) (((maxScaled / 2) * w) / total)
        (calcMin * 2, calcMax * 2)
      else (minScaled, maxScaled)
    else (minScaled, maxScaled)
  let bounds := if isBackup then (0, ((3 * g.2) / 2) * 2) else prorated
  let counted :=
    if cfg.excludeCalendarRules then
      flexible.filter (fun d => staffWorks inp st.sid d && hasShiftVar inp st.sid d)
    else
      inp.dates.filter (fun d => staffWorks inp st.sid d && hasShiftVar inp st.sid d)
  ⟨st.sid, counted, starEquivOf prefSyms cfg.excludeCalendarRules flexible st.sid,
   bounds.1, bounds.2, cfg.isHard⟩

/-- _add_monthly_limits: one bound record per staff member; the pass does
nothing when no monthlyLimit configuration is supplied. -/
def monthlyPass (inp : SchedInput) (cfg : Option MonthlyCfg)
    (offDates backupIds : List Nat) (prefSyms : List ((Nat × Nat) × String)) :
    List MonthlyBound :=
  match cfg with
  | none => []
  | some c => inp.staff.map (monthlyStaffBound inp c offDates backupIds prefSyms)

/-- The monthly bound for one staff member when _add_monthly_limits runs
in pipeline position: calendar_off_dates, backup_staff_ids and
prefilled_symbols hold exactly what the earlier passes of the same call
computed. -/
def monthlyBoundAt (inp : SchedInput) (cfg : MonthlyCfg) (st : Staff) : MonthlyBound :=
  monthlyStaffBound inp cfg (compileCore inp).offDates (compileCore inp).backupIds
    (compileCore inp).prefSymbols st

/-- The scaled combined off-equivalent of a staff member under an
assignment: 2 per Off, 1 per Early over the counted dates, plus the star
constant. -/
def combinedScaled (a : Assign) (b : MonthlyBound) : Nat :=
  (b.countedDates.map (fun d =>
      (if a b.sid d .off then 2 else 0) + (if a b.sid d .early then 1 else 0))).sum +
    b.starScaled

/-- Satisfaction of a monthly bound in HARD mode (the min side is only
added when the scaled minimum is positive, which for naturals is the same
as requiring it unconditionally). -/
def monthlyHardSat (a : Assign) (b : MonthlyBound) : Bool :=
  decide (b.minScaled ≤ combinedScaled a b) && decide (combinedScaled a b ≤ b.maxScaled)

/-! ## Per-staff-type daily limits (_add_staff_type_daily_limits) -/

/-- One staffTypeLimits entry.  The limit values arrive as arbitrary
numbers and are validated before use, so they are modelled as integers. -/
structure TypeLimits where
  minOff : Option Int
  maxOff : Option Int
  maxEarly : Option Int
  isHard : Bool
deriving DecidableEq, Repr

/-- A soft constraint emitted by the staff-type pass: the under-minimum
penalty integer and the over-combined-maximum penalty integer, each
carrying the bound it penalises, the cohort summed over, and the penalty
weight. -/
inductive TypeSoftC where
  | underMin (t : String) (d : Nat) (minOff : Int) (cohort : List Nat) (weight : Nat)
  | overMax (t : String) (d : Nat) (maxScaled : Int) (cohort : List Nat) (weight : Nat)
deriving DecidableEq, Repr

/-- The integer expression whose positive part the penalty variable of a
staff-type soft constraint bounds (the model adds var ge expr and
var ge 0). -/
def typeSoftExcess (a : Assign) : TypeSoftC → Int
  | .underMin _ d m cohort _ =>
      m - (cohort.map (fun s => if a s d .off then (1 : Int) else 0)).sum
  | .overMax _ d mx cohort _ =>
      (cohort.map (fun s =>
        (if a s d .off then (2 : Int) else 0) + (if a s d .early then 1 else 0))).sum - mx

/-- Output of the staff-type pass: it never emits hard constraints, only
soft penalty records. -/
structure TypeOut where
  hards : List Constr
  softs : List TypeSoftC
deriving Repr

/-- The cohort of one staff type: the non-backup staff whose status equals
the configured type (staff_by_type of the source). -/
def cohortOf (inp : SchedInput) (backupIds : List Nat) (t : String) : List Staff :=
  inp.staff.filter (fun st => !(backupIds.contains st.sid) && st.status == t)

/-- The cohort members that are employed with a shift variable on a date
(active_type_staff of the source), as staff ids. -/
def activeCohort (inp : SchedInput) (backupIds : List Nat) (t : String) (d : Nat) :
    List Nat :=
  ((cohortOf inp backupIds t).filter
    (fun st => staffWorks inp st.sid d && hasShiftVar inp st.sid d)).map
    (fun st => st.sid)

/-- Processing of one staffTypeLimits entry, mirroring the validation
chain (empty cohort, no limits, negative limits, minOff above maxOff) and
the per-date emission: the requested isHard flag is always overridden to
SOFT, surviving only as the 3x penalty multiplier; missing maxOff/maxEarly
default to the 999 sentinel; the under-minimum record (with doubled
penalty) is emitted only when minOff is given and positive. -/
def typeEntryEmit (inp : SchedInput) (backupIds : List Nat) (w : Nat)
    (offDates : List Nat) (t : String) (L : TypeLimits) : TypeOut :=
  if (cohortOf inp backupIds t).isEmpty then ⟨[], []⟩
  else if L.minOff == none && L.maxOff == none && L.maxEarly == none then ⟨[], []⟩
  else if (match L.minOff with | some m => decide (m < 0) | none => false) then ⟨[], []⟩
  else if (match L.maxOff with | some m => decide (m < 0) | none => false) then ⟨[], []⟩
  else if (match L.maxEarly with | some m => decide (m < 0) | none => false) then ⟨[], []⟩
  else if (match L.minOff, L.maxOff with
           | some m, some M => decide (M < m)
           | _, _ => false) then ⟨[], []⟩
  else
    let mult : Nat := if L.isHard then 3 else 1
    let maxOffVal := L.maxOff.getD 999
    let maxEarlyVal := L.maxEarly.getD 999
    let maxScaled := maxOffVal * 2 + maxEarlyVal * 1
    ⟨[],
     inp.dates.flatMap (fun d =>
       if offDates.contains d then []
       else
         let active := activeCohort inp backupIds t d
         let minPart : List TypeSoftC :=
           match L.minOff with
           | some m => if 0 < m then [.underMin t d m active (w * mult * 2)] else []
           | none => []
         minPart ++ [.overMax t d maxScaled active (w * mult)])⟩

/-- _add_staff_type_daily_limits over all configured entries. -/
def staffTypePass (inp : SchedInput) (entries : List (String × TypeLimits))
    (backupIds : List Nat) (w : Nat) (offDates : List Nat) : TypeOut :=
  ⟨entries.flatMap (fun e => (typeEntryEmit inp backupIds w offDates e.1 e.2).hards),
   entries.flatMap (fun e => (typeEntryEmit inp backupIds w offDates e.1 e.2).softs)⟩

/-! ## Adjacent-pair prevention (_add_adjacent_conflict_prevention) -/

/-- Output of the adjacent pass. -/
structure AdjOut where
  hards : List Constr
  viols : List Viol
deriving Repr

/-- The body of the consecutive-date loop for one staff member and one
pair of consecutive horizon dates.  Mirrors the skip chain of the source:
the pair is skipped when both dates are calendar-off, when either date
lacks a shift variable, and then again when date1 is calendar-off or date2
is calendar-off, so only pairs with neither date calendar-off reach the
pre-filled-work protections and the four reified pattern penalties. -/
def adjacentPairEmit (inp : SchedInput) (offDates : List Nat)
    (prefSyms : List ((Nat × Nat) × String)) (w : Nat) (sid d1 d2 : Nat) : AdjOut :=
  let c1 := offDates.contains d1
  let c2 := offDates.contains d2
  let p1 := plookup (sid, d1) prefSyms
  let p2 := plookup (sid, d2) prefSyms
  let p1Work := p1.isSome && !(p1 == some "×")
  let p2Work := p2.isSome && !(p2 == some "×")
  if c1 && c2 then ⟨[], []⟩
  else if !(hasShiftVar inp sid d1) || !(hasShiftVar inp sid d2) then ⟨[], []⟩
  else if c1 then ⟨[], []⟩
  else if c2 then ⟨[], []⟩
  else
    let pre1 : AdjOut :=
      if p1Work && !c2 then
        ⟨[.impC [.auxL (.prefAdj sid d1 d2) false] (.shiftL sid d2 .off false),
          .impC [.auxL (.prefAdj sid d1 d2) true] (.shiftL sid d2 .off true)],
         [⟨.prefAdj sid d1 d2, 500⟩]⟩
      else ⟨[], []⟩
    let pre2 : AdjOut :=
      if p2Work && !c1 then
        ⟨[.impC [.auxL (.prefAdj sid d2 d1) false] (.shiftL sid d1 .off false),
          .impC [.auxL (.prefAdj sid d2 d1) true] (.shiftL sid d1 .off true)],
         [⟨.prefAdj sid d2 d1, 500⟩]⟩
      else ⟨[], []⟩
    let pats : AdjOut :=
      ⟨[.pairLe1If (.patXX sid d1) false sid d1 .off d2 .off,
        .pairGe2If (.patXX sid d1) true sid d1 .off d2 .off,
        .pairLe1If (.patSX sid d1) false sid d1 .early d2 .off,
        .pairGe2If (.patSX sid d1) true sid d1 .early d2 .off,
        .pairLe1If (.patXS sid d1) false sid d1 .off d2 .early,
        .pairGe2If (.patXS sid d1) true sid d1 .off d2 .early,
        .pairLe1If (.patSS sid d1) false sid d1 .early d2 .early,
        .pairGe2If (.patSS sid d1) true sid d1 .early d2 .early],
       [⟨.patXX sid d1, w⟩, ⟨.patSX sid d1, w⟩, ⟨.patXS sid d1, w⟩, ⟨.patSS sid d1, w⟩]⟩
    ⟨pre1.hards ++ pre2.hards ++ pats.hards, pre1.viols ++ pre2.viols ++ pats.viols⟩

/-- _add_adjacent_conflict_prevention over all staff and all consecutive
horizon date pairs. -/
def adjacentPass (inp : SchedInput) (offDates : List Nat)
    (prefSyms : List ((Nat × Nat) × String)) (w : Nat) : AdjOut :=
  ⟨inp.staff.flatMap (fun st =>
      (inp.dates.zip inp.dates.tail).flatMap
        (fun p => (adjacentPairEmit inp offDates prefSyms w st.sid p.1 p.2).hards)),
   inp.staff.flatMap (fun st =>
      (inp.dates.zip inp.dates.tail).flatMap
        (fun p => (adjacentPairEmit inp offDates prefSyms w st.sid p.1 p.2).viols))⟩

/-! ## Entry-point result handling (optimize_schedule and
_extract_solution) -/

/-- The five CP-SAT statuses _extract_solution distinguishes. -/
inductive SolverStatus where
  | optimal
  | feasible
  | infeasible
  | modelInvalid
  | unknown
deriving DecidableEq, Repr

/-- The status_names table of _extract_solution. -/
def statusName : SolverStatus → String
  | .optimal => "OPTIMAL"
  | .feasible => "FEASIBLE"
  | .infeasible => "INFEASIBLE"
  | .modelInvalid => "MODEL_INVALID"
  | .unknown => "UNKNOWN"

/-- The observable skeleton of the dictionary optimize_schedule returns:
the success flag, the error message (present only on failure), the status
name (absent when an exception was caught before solving), and the
schedule grid. -/
structure OptResult where
  success : Bool
  error : Option String
  status : Option String
  schedule : List (Nat × List (Nat × String))
deriving DecidableEq, Repr

/-- _extract_solution result dispatch: OPTIMAL and FEASIBLE produce a
success record carrying the extracted schedule; every other status
produces success false with the status name and an empty schedule. -/
def extractResult (status : SolverStatus)
    (sched : List (Nat × List (Nat × String))) : OptResult :=
  match status with
  | .optimal => ⟨true, none, some "OPTIMAL", sched⟩
  | .feasible => ⟨true, none, some "FEASIBLE", sched⟩
  | s => ⟨false, some ("No feasible solution found. Status: " ++ statusName s),
          some (statusName s), []⟩

/-- The try/except wrapper of optimize_schedule around the compile, solve
and extract pipeline: an exception raised anywhere inside the pipeline is
caught and returned as success false with the message and an empty
schedule; otherwise the result of _extract_solution is returned. -/
def optimizeEntry
    (pipeline : Except String (SolverStatus × List (Nat × List (Nat × String)))) :
    OptResult :=
  match pipeline with
  | .error e => ⟨false, some e, none, []⟩
  | .ok p => extractResult p.1 p.2

/-! ## Cross-call instance state (optimize_schedule reset block)

The optimizer object carries mutable instance fields.  The reset block at
the top of optimize_schedule clears self.calendar_off_dates,
self.prefilled_cells, self.prefilled_star_equiv_by_staff,
self.backup_unavailable_slots and self.violation_vars, but it does not
touch self.calendar_work_dates or self.backup_staff_ids, and
self.prefilled_symbols is (re)assigned only inside
_add_prefilled_constraints, which returns early - leaving the attribute
from the previous call in place - when the current call supplies no
pre-filled cells. -/

/-- The instance fields of ShiftScheduleOptimizer that survive between
calls and are read by later passes of the next call.  prefilledSymbols is
an Option: none models the attribute never having been assigned (getattr
with default). -/
structure OptState where
  calendarOffDates : List Nat
  calendarWorkDates : List Nat
  backupStaffIds : List Nat
  prefilledSymbols : Option (List ((Nat × Nat) × String))
deriving DecidableEq, Repr

/-- The state of a freshly constructed optimizer. -/
def initState : OptState :=
  ⟨[], [], [], none⟩

/-- The field resets performed at the top of optimize_schedule: only
calendar_off_dates among the four tracked fields is cleared. -/
def resetState (st : OptState) : OptState :=
  { st with calendarOffDates := [] }

/-- One optimize_schedule call viewed as a transformer of the tracked
instance state: after the reset, the prefilled pass assigns
prefilled_symbols only when pre-filled cells are supplied, the calendar
pass adds to calendar_off_dates and calendar_work_dates, and the backup
pass adds to backup_staff_ids. -/
def runCallState (st : OptState) (inp : SchedInput) : OptState :=
  let st1 := resetState st
  let st2 :=
    if inp.prefilled.isEmpty then st1
    else { st1 with prefilledSymbols := some (prefilledPass inp).2 }
  let cal := calendarPass inp
  let st3 := { st2 with
    calendarOffDates := st2.calendarOffDates ++ cal.offDates,
    calendarWorkDates := st2.calendarWorkDates ++ cal.workDates }
  let b := backupPass inp st3.calendarOffDates
  { st3 with backupStaffIds := st3.backupStaffIds ++ b.backupIds }

/-! ## Concrete instances used by the counterexamples and witnesses -/

/-- The auxiliary assignment that sets every auxiliary variable to
false. -/
def auxNone : AuxAssign := fun _ => false

/-- One staff member, one must_day_off date (5), and a pre-filled cell
with the Off alias glyph x on that date. -/
def exC1 : SchedInput :=
  ⟨[⟨1, "R", none, none⟩], [5], [(5, ⟨true, false⟩)], [],
   [(1, [(5, "x")])], [], [], [], true, 500⟩

/-- Like exC1 but with no pre-filled cells. -/
def exC1w : SchedInput :=
  ⟨[⟨1, "R", none, none⟩], [5], [(5, ⟨true, false⟩)], [], [], [], [], [], true, 500⟩

/-- The assignment giving staff 1 the Off kind on date 5 and Work
elsewhere. -/
def aOff15 : Assign := fun s d k =>
  match k with
  | .off => s == 1 && d == 5
  | .work => !(s == 1 && d == 5)
  | _ => false

/-- Backup staff 1 covering group 10 = staff 2, eight flexible dates,
monthly maxCount 7. -/
def exC2 : SchedInput :=
  ⟨[⟨1, "R", none, none⟩, ⟨2, "R", none, none⟩], [1, 2, 3, 4, 5, 6, 7, 8],
   [], [], [], [⟨10, [2]⟩], [⟨some 1, some 10, true⟩], [], true, 500⟩

/-- Monthly configuration with maxCount 7 and no minimum. -/
def cfgC2 : MonthlyCfg := ⟨none, some 7, true, false⟩

/-- First call of the cross-call experiment: an active backup assignment
for staff 1, a must_work calendar date 3, and a pre-filled cell for
staff 2. -/
def exC3a : SchedInput :=
  ⟨[⟨1, "R", none, none⟩, ⟨2, "R", none, none⟩], [3, 4],
   [(3, ⟨false, true⟩)], [], [(2, [(3, "×")])], [⟨10, [2]⟩],
   [⟨some 1, some 10, true⟩], [], true, 500⟩

/-- Second call of the cross-call experiment: the same roster and horizon
with no constraints at all. -/
def exC3b : SchedInput :=
  ⟨[⟨1, "R", none, none⟩, ⟨2, "R", none, none⟩], [3, 4],
   [], [], [], [], [], [], true, 500⟩

/-- Monthly configuration used to observe the cross-call divergence. -/
def cfgC3 : MonthlyCfg := ⟨some 2, some 7, true, false⟩

/-- One staff member and two consecutive dates of which exactly the first
is a must_day_off date. -/
def exC4 : SchedInput :=
  ⟨[⟨1, "R", none, none⟩], [1, 2], [(1, ⟨true, false⟩)], [], [], [], [], [],
   true, 500⟩

/-- One staff member and two consecutive dates with no calendar rules. -/
def exC4w : SchedInput :=
  ⟨[⟨1, "R", none, none⟩], [1, 2], [], [], [], [], [], [], true, 500⟩

/-- One staff member of status A on one date, for the staff-type-limit
witness. -/
def exC5 : SchedInput :=
  ⟨[⟨1, "A", none, none⟩], [4], [], [], [], [], [], [], true, 500⟩

/-- A staff-type limit entry requesting HARD with minOff 1, maxOff 2,
maxEarly 3. -/
def limC5 : TypeLimits := ⟨some 1, some 2, some 3, true⟩

/-- Staff 3 starts on date 5 of the eight-date horizon 1..8. -/
def exC7 : SchedInput :=
  ⟨[⟨3, "R", some 5, none⟩], [1, 2, 3, 4, 5, 6, 7, 8], [], [], [], [], [], [],
   true, 500⟩

/-- Monthly configuration with minCount 2 and maxCount 6. -/
def cfgC7 : MonthlyCfg := ⟨some 2, some 6, true, false⟩

/-- One staff member with an early-shift preference entry whose value is
the Python integer 1 on the must_day_off date 5. -/
def exC8 : SchedInput :=
  ⟨[⟨1, "R", none, none⟩], [5], [(5, ⟨true, false⟩)],
   [(1, ⟨[(5, .pyint 1)], none⟩)], [], [], [], [], true, 500⟩

/-- Like exC8 but the preference value is the truthy string true. -/
def exC8w : SchedInput :=
  ⟨[⟨1, "R", none, none⟩], [5], [(5, ⟨true, false⟩)],
   [(1, ⟨[(5, .pystr "true")], none⟩)], [], [], [], [], true, 500⟩

/-- Backup staff 1 covering group 10 = staff 2 on the single date 5,
which is an external-calendar holiday; HARD mode. -/
def exC10 : SchedInput :=
  ⟨[⟨1, "R", none, none⟩, ⟨2, "R", none, none⟩], [5], [], [], [],
   [⟨10, [2]⟩], [⟨some 1, some 10, true⟩], [5], true, 500⟩

/-- The assignment in which the backup (staff 1) is Off on the holiday and
the covered member (staff 2) works. -/
def aC10 : Assign := fun s d k =>
  match k with
  | .off => s == 1 && d == 5
  | .work => s == 2 && d == 5
  | _ => false

/-- The glyph alias table as published by the spec: every accepted glyph
with its shift kind. -/
def claimAliases : List (String × Shift) :=
  [("×", .off), ("x", .off), ("X", .off),
   ("△", .early), ("s", .early), ("S", .early),
   ("◇", .late),
   ("○", .work), ("", .work), ("★", .work), ("☆", .work), ("●", .work),
   ("◎", .work), ("▣", .work), ("⊘", .work)]

/-! ## Helper lemmas -/

theorem sat_of_mem {a : Assign} {aux : AuxAssign} {cs : List Constr} {c : Constr}
    (h : satAll a aux cs = true) (hc : c ∈ cs) : satC a aux c = true :=
  List.all_eq_true.mp h c hc

theorem contains_true_iff {l : List Nat} {x : Nat} : l.contains x = true ↔ x ∈ l := by
  simp

/-! ## C9: symbol-codec round trip -/

/-- C9: decoding the canonical glyph of each kind returns that kind, and
for every glyph of the accepted alias table, decoding gives the kind the
table lists and re-encoding the decoded kind gives the canonical glyph of
that kind. -/
theorem symbol_codec_round_trip :
    (∀ k : Shift, SYMBOL_TO_SHIFT (SHIFT_SYMBOLS k) = some k) ∧
    (∀ p ∈ claimAliases,
      SYMBOL_TO_SHIFT p.1 = some p.2 ∧
      (SYMBOL_TO_SHIFT p.1).map SHIFT_SYMBOLS = some (SHIFT_SYMBOLS p.2)) := by
  constructor
  · intro k; cases k <;> rfl
  · intro p hp
    fin_cases hp <;> exact ⟨rfl, rfl⟩

/-- Witness for C9 at the alias x: it decodes to Off and re-encodes to the
canonical glyph of Off. -/
theorem symbol_codec_round_trip_witness :
    SYMBOL_TO_SHIFT "x" = some Shift.off ∧
    (SYMBOL_TO_SHIFT "x").map SHIFT_SYMBOLS = some "×" :=
  symbol_codec_round_trip.2 ("x", Shift.off) (by decide)

/-! ## C6: entry-point error handling -/

/-- C6: optimize_schedule returns success true exactly when the solver
status is OPTIMAL or FEASIBLE; a caught exception is returned as success
false with the message and an empty schedule; a non-success status is
returned as success false carrying the status name and an empty
schedule. -/
theorem optimize_entry_error_handling :
    ∀ p : Except String (SolverStatus × List (Nat × List (Nat × String))),
      ((optimizeEntry p).success = true ↔
        ∃ st sched, p = .ok (st, sched) ∧ (st = .optimal ∨ st = .feasible)) ∧
      (∀ e, p = .error e → optimizeEntry p = ⟨false, some e, none, []⟩) ∧
      (∀ st sched, p = .ok (st, sched) →
        st = .infeasible ∨ st = .modelInvalid ∨ st = .unknown →
        (optimizeEntry p).success = false ∧
        (optimizeEntry p).status = some (statusName st) ∧
        (optimizeEntry p).schedule = []) := by
  intro p
  rcases p with e | ⟨st, sched⟩
  · refine ⟨?_, ?_, ?_⟩
    · constructor
      · intro h; simp [optimizeEntry] at h
      · rintro ⟨st, sched, h, -⟩; cases h
    · intro e2 h
      cases h
      rfl
    · intro st sched h
      cases h
  · refine ⟨?_, ?_, ?_⟩
    · constructor
      · intro h
        cases st
        · exact ⟨.optimal, sched, rfl, Or.inl rfl⟩
        · exact ⟨.feasible, sched, rfl, Or.inr rfl⟩
        · simp [optimizeEntry, extractResult] at h
        · simp [optimizeEntry, extractResult] at h
        · simp [optimizeEntry, extractResult] at h
      · rintro ⟨st2, sched2, h, hor⟩
        cases h
        rcases hor with h | h <;> cases h <;> rfl
    · intro e h; cases h
    · intro st2 sched2 h hst
      cases h
      rcases hst with h | h | h <;> cases h <;> exact ⟨rfl, rfl, rfl⟩

/-- Witness for C6: the INFEASIBLE status yields success false with the
status name and an empty schedule, and a caught exception yields success
false with the message. -/
theorem optimize_entry_error_handling_witness :
    ((optimizeEntry (.ok (SolverStatus.infeasible, []))).success = false ∧
     (optimizeEntry (.ok (SolverStatus.infeasible, []))).status = some "INFEASIBLE" ∧
     (optimizeEntry (.ok (SolverStatus.infeasible, []))).schedule = []) ∧
    optimizeEntry (.error "boom") = ⟨false, some "boom", none, []⟩ := by
  have h := optimize_entry_error_handling (.ok (SolverStatus.infeasible, []))
  have h2 := optimize_entry_error_handling (Except.error "boom")
  exact ⟨h.2.2 SolverStatus.infeasible [] rfl (Or.inl rfl), h2.2.1 "boom" rfl⟩

/-! ## C2: relaxed monthly limits for backup staff -/

/-- Backup override of the monthly bounds: min 0 and
max = int(max_off * 1.5), i.e. the floor of 1.5 times the clamped global
maximum. -/
theorem monthlyStaffBound_backup (inp : SchedInput) (cfg : MonthlyCfg)
    (offDates backupIds : List Nat) (prefSyms : List ((Nat × Nat) × String))
    (st : Staff) (hb : backupIds.contains st.sid = true) :
    (monthlyStaffBound inp cfg offDates backupIds prefSyms st).minScaled = 0 ∧
    (monthlyStaffBound inp cfg offDates backupIds prefSyms st).maxScaled =
      ((3 * (monthlyGlobal cfg
        (inp.dates.filter (fun d => !(offDates.contains d))).length).2) / 2) * 2 := by
  unfold monthlyStaffBound
  simp only [hb, if_true]
  exact ⟨trivial, trivial⟩

/-- C2 counterexample: with configured maxCount 7 and eight flexible
dates, the backup staff gets scaled maximum 20 = 2 * int(7 * 1.5), not
22 = 2 * 11 as the claim (ceiling) states. -/
theorem backup_monthly_max_counterexample :
    (compileCore exC2).backupIds.contains 1 = true ∧
    cfgC2.maxCount = some 7 ∧
    (monthlyBoundAt exC2 cfgC2 ⟨1, "R", none, none⟩).minScaled = 0 ∧
    (monthlyBoundAt exC2 cfgC2 ⟨1, "R", none, none⟩).maxScaled = 20 ∧
    (20 : Nat) ≠ 2 * 11 := by
  refine ⟨by decide, rfl, by decide, by decide, by decide⟩

/-- C2 amended: for a backup staff id and configured monthly maximum m
(not exceeding the number of flexible dates), the monthly pass uses
min = 0 and max = the floor of 1.5 m (Python int truncation, not the
ceiling), so the scaled off-equivalent sum is bounded by
2 * ((3 m) / 2) in HARD mode. -/
theorem backup_monthly_relaxed_limits
    (inp : SchedInput) (cfg : MonthlyCfg) (st : Staff) (m : Nat)
    (hb : (compileCore inp).backupIds.contains st.sid = true)
    (hmax : cfg.maxCount = some m)
    (hflex : m ≤ (inp.dates.filter
        (fun d => !((compileCore inp).offDates.contains d))).length) :
    (monthlyBoundAt inp cfg st).minScaled = 0 ∧
    (monthlyBoundAt inp cfg st).maxScaled = 2 * ((3 * m) / 2) ∧
    (∀ a : Assign, monthlyHardSat a (monthlyBoundAt inp cfg st) = true →
      combinedScaled a (monthlyBoundAt inp cfg st) ≤ 2 * ((3 * m) / 2)) := by
  have hg : (monthlyGlobal cfg (inp.dates.filter
      (fun d => !((compileCore inp).offDates.contains d))).length).2 = m := by
    simp only [monthlyGlobal, hmax, Option.getD_some]
    exact Nat.min_eq_left hflex
  have hbd := monthlyStaffBound_backup inp cfg (compileCore inp).offDates
    (compileCore inp).backupIds (compileCore inp).prefSymbols st hb
  rw [hg] at hbd
  refine ⟨hbd.1, ?_, ?_⟩
  · rw [monthlyBoundAt, hbd.2, Nat.mul_comm]
  · intro a ha
    have hsat : combinedScaled a (monthlyBoundAt inp cfg st) ≤
        (monthlyBoundAt inp cfg st).maxScaled := by
      simp only [monthlyHardSat, Bool.and_eq_true, decide_eq_true_eq] at ha
      exact ha.2
    rw [monthlyBoundAt, hbd.2, Nat.mul_comm] at hsat
    exact hsat

/-- Witness for C2 with m = 7 on exC2: bounds 0 and 2 * 10. -/
theorem backup_monthly_relaxed_limits_witness :
    (monthlyBoundAt exC2 cfgC2 ⟨1, "R", none, none⟩).minScaled = 0 ∧
    (monthlyBoundAt exC2 cfgC2 ⟨1, "R", none, none⟩).maxScaled = 2 * ((3 * 7) / 2) := by
  have h := backup_monthly_relaxed_limits exC2 cfgC2 ⟨1, "R", none, none⟩ 7
    (by decide) rfl (by decide)
  exact ⟨h.1, h.2.1⟩

/-! ## C7: prorated monthly limits for partial employment windows -/

/-- C7: a staff member employed on w of the total horizon days
(0 < w < total) gets prorated limits min = floor(w / 4.25) and
max = max(min + 1, floor(global_max * w / total)), each scaled by 2;
a staff member with neither start_period nor end_period keeps the global
limits. -/
theorem prorated_monthly_limits
    (inp : SchedInput) (cfg : MonthlyCfg) (st : Staff)
    (hnb : (compileCore inp).backupIds.contains st.sid = false)
    (w M gmin : Nat)
    (hw : w = (inp.dates.filter (fun d => worksOnDate st.startP st.endP d)).length)
    (hM : M = (monthlyGlobal cfg (inp.dates.filter
        (fun d => !((compileCore inp).offDates.contains d))).length).2)
    (hgmin : gmin = (monthlyGlobal cfg (inp.dates.filter
        (fun d => !((compileCore inp).offDates.contains d))).length).1) :
    (0 < w → w < inp.dates.length →
      (monthlyBoundAt inp cfg st).minScaled = 2 * ((4 * w) / 17) ∧
      (monthlyBoundAt inp cfg st).maxScaled =
        2 * max ((4 * w) / 17 + 1) ((M * w) / inp.dates.length)) ∧
    (st.startP = none → st.endP = none →
      (monthlyBoundAt inp cfg st).minScaled = 2 * gmin ∧
      (monthlyBoundAt inp cfg st).maxScaled = 2 * M) := by
  constructor
  · intro h0 hlt
    have hsome : (st.startP.isSome || st.endP.isSome) = true := by
      rcases hsp : st.startP with _ | s
      · rcases hep : st.endP with _ | e
        · exfalso
          rw [hw, hsp, hep] at hlt
          have hfe : inp.dates.filter (fun d => worksOnDate none none d) = inp.dates :=
            List.filter_eq_self.mpr (fun a _ => rfl)
          rw [hfe] at hlt
          exact Nat.lt_irrefl _ hlt
        · simp
      · simp
    unfold monthlyBoundAt monthlyStaffBound
    rw [← hw] at *
    simp only [hnb, Bool.false_eq_true, if_false, hsome, if_true, ← hw,
      decide_eq_true h0, decide_eq_true hlt, Bool.and_self, if_true, ← hM]
    constructor
    · rw [Nat.mul_comm]
    · rw [Nat.mul_comm]
      have h2 : M * 2 / 2 = M := by omega
      rw [h2]
  · intro hsp hep
    unfold monthlyBoundAt monthlyStaffBound
    simp only [hnb, Bool.false_eq_true, if_false, hsp, hep, Option.isSome_none,
      Bool.or_self, ← hM, ← hgmin]
    exact ⟨Nat.mul_comm _ 2, Nat.mul_comm _ 2⟩

/-- Witness for C7 on exC7: staff 3 works 4 of 8 days, so the prorated
scaled bounds are 0 and 6. -/
theorem prorated_monthly_limits_witness :
    (monthlyBoundAt exC7 cfgC7 ⟨3, "R", some 5, none⟩).minScaled = 2 * ((4 * 4) / 17) ∧
    (monthlyBoundAt exC7 cfgC7 ⟨3, "R", some 5, none⟩).maxScaled =
      2 * max ((4 * 4) / 17 + 1) ((6 * 4) / 8) := by
  have h := (prorated_monthly_limits exC7 cfgC7 ⟨3, "R", some 5, none⟩
    (by decide) 4 6 2 (by decide) (by decide) (by decide)).1 (by decide) (by decide)
  exact h

/-! ## C3: cross-call instance state -/

/-- C3: calling optimize_schedule a second time on the same optimizer
instance is observably different from calling it on a fresh instance:
the backup-staff-id set and the calendar-work-date set of the first call
survive into the second call, the pre-filled symbol map of the first call
is still visible when the second call supplies no pre-fills, and the
surviving backup-staff-id set changes the monthly bounds the second call
computes. -/
theorem cross_call_state_leak :
    (1 ∈ (runCallState (runCallState initState exC3a) exC3b).backupStaffIds ∧
     1 ∉ (runCallState initState exC3b).backupStaffIds) ∧
    (3 ∈ (runCallState (runCallState initState exC3a) exC3b).calendarWorkDates ∧
     3 ∉ (runCallState initState exC3b).calendarWorkDates) ∧
    (runCallState (runCallState initState exC3a) exC3b).prefilledSymbols ≠
      (runCallState initState exC3b).prefilledSymbols ∧
    monthlyStaffBound exC3b cfgC3 []
        (runCallState (runCallState initState exC3a) exC3b).backupStaffIds []
        ⟨1, "R", none, none⟩ ≠
      monthlyStaffBound exC3b cfgC3 []
        (runCallState initState exC3b).backupStaffIds []
        ⟨1, "R", none, none⟩ := by
  decide

/-! ## C5: per-staff-type daily limits are always SOFT -/

theorem typeEntryEmit_hards (inp : SchedInput) (backupIds : List Nat) (w : Nat)
    (offDates : List Nat) (t : String) (L : TypeLimits) :
    (typeEntryEmit inp backupIds w offDates t L).hards = [] := by
  unfold typeEntryEmit
  repeat' (first | rfl | split)

theorem staffTypePass_hards (inp : SchedInput) (entries : List (String × TypeLimits))
    (backupIds : List Nat) (w : Nat) (offDates : List Nat) :
    (staffTypePass inp entries backupIds w offDates).hards = [] := by
  simp [staffTypePass, typeEntryEmit_hards]

/-- C5: a configured staff-type limit with a non-empty cohort and valid
bounds is compiled entirely as SOFT constraints: the pass emits no hard
constraint at all; for every non-calendar date it emits the combined upper
bound 2 maxOff + 1 maxEarly (sentinel 999 for a missing side) with weight
staff_type_limit x 3 when HARD was requested (x 1 otherwise), and, when
minOff is given and positive, the separate soft lower bound off ge minOff
with an additional doubled penalty. -/
theorem staff_type_limits_always_soft
    (inp : SchedInput) (entries : List (String × TypeLimits))
    (backupIds : List Nat) (w : Nat) (offDates : List Nat)
    (t : String) (L : TypeLimits)
    (hmem : (t, L) ∈ entries)
    (hcoh : (cohortOf inp backupIds t).isEmpty = false)
    (hno : (L.minOff == none && L.maxOff == none && L.maxEarly == none) = false)
    (hminneg : (match L.minOff with | some m => decide (m < 0) | none => false) = false)
    (hmaxneg : (match L.maxOff with | some m => decide (m < 0) | none => false) = false)
    (hearlyneg : (match L.maxEarly with | some m => decide (m < 0) | none => false) = false)
    (hmm : (match L.minOff, L.maxOff with
            | some m, some M => decide (M < m)
            | _, _ => false) = false)
    (d : Nat) (hd : d ∈ inp.dates) (hcal : offDates.contains d = false) :
    (staffTypePass inp entries backupIds w offDates).hards = [] ∧
    TypeSoftC.overMax t d (L.maxOff.getD 999 * 2 + L.maxEarly.getD 999 * 1)
        (activeCohort inp backupIds t d) (w * (if L.isHard then 3 else 1)) ∈
      (staffTypePass inp entries backupIds w offDates).softs ∧
    (∀ m : Int, L.minOff = some m → 0 < m →
      TypeSoftC.underMin t d m (activeCohort inp backupIds t d)
          (w * (if L.isHard then 3 else 1) * 2) ∈
        (staffTypePass inp entries backupIds w offDates).softs) := by
  have hentry : (typeEntryEmit inp backupIds w offDates t L).softs =
      inp.dates.flatMap (fun d0 =>
        if offDates.contains d0 then []
        else
          (match L.minOff with
           | some m => if 0 < m then
               [TypeSoftC.underMin t d0 m (activeCohort inp backupIds t d0)
                 (w * (if L.isHard then 3 else 1) * 2)] else []
           | none => []) ++
          [TypeSoftC.overMax t d0 (L.maxOff.getD 999 * 2 + L.maxEarly.getD 999 * 1)
            (activeCohort inp backupIds t d0) (w * (if L.isHard then 3 else 1))]) := by
    unfold typeEntryEmit
    rw [if_neg (by simp [hcoh]), if_neg (by simp [hno]), if_neg (by simp [hminneg]),
        if_neg (by simp [hmaxneg]), if_neg (by simp [hearlyneg]), if_neg (by simp [hmm])]
  refine ⟨staffTypePass_hards inp entries backupIds w offDates, ?_, ?_⟩
  · refine List.mem_flatMap.mpr ⟨(t, L), hmem, ?_⟩
    rw [hentry]
    refine List.mem_flatMap.mpr ⟨d, hd, ?_⟩
    rw [if_neg (by simpa using hcal)]
    exact List.mem_append_right _ (by simp)
  · intro m hm hpos
    refine List.mem_flatMap.mpr ⟨(t, L), hmem, ?_⟩
    rw [hentry]
    refine List.mem_flatMap.mpr ⟨d, hd, ?_⟩
    rw [if_neg (by simpa using hcal)]
    refine List.mem_append_left _ ?_
    rw [hm]
    simp only [if_pos hpos]
    exact List.mem_singleton.mpr rfl

/-- Witness for C5 on exC5 with a HARD request (minOff 1, maxOff 2,
maxEarly 3): no hard constraints, the combined bound 7 with tripled weight
180, and the lower bound with weight 360. -/
theorem staff_type_limits_always_soft_witness :
    (staffTypePass exC5 [("A", limC5)] [] 60 []).hards = [] ∧
    TypeSoftC.overMax "A" 4 7 [1] 180 ∈ (staffTypePass exC5 [("A", limC5)] [] 60 []).softs ∧
    TypeSoftC.underMin "A" 4 1 [1] 360 ∈ (staffTypePass exC5 [("A", limC5)] [] 60 []).softs := by
  have h := staff_type_limits_always_soft exC5 [("A", limC5)] [] 60 [] "A" limC5
    (by decide) (by decide) (by decide) (by decide) (by decide) (by decide) (by decide)
    4 (by decide) (by decide)
  exact ⟨h.1, h.2.1, h.2.2 1 rfl (by decide)⟩

/-! ## C4: adjacent-pair prevention skip condition -/

theorem adjacentPairEmit_skip (inp : SchedInput) (offDates : List Nat)
    (prefSyms : List ((Nat × Nat) × String)) (w sid d1 d2 : Nat)
    (hc : offDates.contains d1 = true ∨ offDates.contains d2 = true) :
    adjacentPairEmit inp offDates prefSyms w sid d1 d2 = ⟨[], []⟩ := by
  unfold adjacentPairEmit
  rcases hc with h | h <;>
    cases h1 : offDates.contains d1 <;> cases h2 : offDates.contains d2 <;>
    simp_all

/-- C4 counterexample: with exactly the first of two consecutive dates a
must_day_off date (and the staff employed with shift variables on both),
the adjacent pass emits no penalties at all; the claim says the four
pattern penalties are still emitted when only one date is calendar-off. -/
theorem adjacent_single_calendar_counterexample :
    (compileCore exC4).offDates.contains 1 = true ∧
    (compileCore exC4).offDates.contains 2 = false ∧
    hasShiftVar exC4 1 1 = true ∧
    hasShiftVar exC4 1 2 = true ∧
    (adjacentPass exC4 (compileCore exC4).offDates (compileCore exC4).prefSymbols
      30).viols = [] := by
  decide

/-- C4 amended: for every staff member and consecutive horizon date pair
on which the staff has shift variables, the four SOFT pattern penalties
(each with the adjacent_conflict weight) are emitted when NEITHER date is
a calendar must_day_off date; a pair in which either date (one or both) is
calendar-off is skipped entirely and receives nothing. -/
theorem adjacent_pairs_amended
    (inp : SchedInput) (offDates : List Nat)
    (prefSyms : List ((Nat × Nat) × String)) (w : Nat) (st : Staff) (d1 d2 : Nat)
    (hst : st ∈ inp.staff) (hpair : (d1, d2) ∈ inp.dates.zip inp.dates.tail)
    (hv1 : hasShiftVar inp st.sid d1 = true)
    (hv2 : hasShiftVar inp st.sid d2 = true) :
    ((offDates.contains d1 = false ∧ offDates.contains d2 = false) →
      ∀ v ∈ ([⟨.patXX st.sid d1, w⟩, ⟨.patSX st.sid d1, w⟩, ⟨.patXS st.sid d1, w⟩,
              ⟨.patSS st.sid d1, w⟩] : List Viol),
        v ∈ (adjacentPass inp offDates prefSyms w).viols) ∧
    ((offDates.contains d1 = true ∨ offDates.contains d2 = true) →
      adjacentPairEmit inp offDates prefSyms w st.sid d1 d2 = ⟨[], []⟩) := by
  constructor
  · rintro ⟨h1, h2⟩ v hv
    have hm1 : d1 ∉ offDates := by simpa using h1
    have hm2 : d2 ∉ offDates := by simpa using h2
    refine List.mem_flatMap.mpr ⟨st, hst, ?_⟩
    refine List.mem_flatMap.mpr ⟨(d1, d2), hpair, ?_⟩
    show v ∈ (adjacentPairEmit inp offDates prefSyms w st.sid d1 d2).viols
    unfold adjacentPairEmit
    rw [if_neg (by simp [hm1]), if_neg (by simp [hv1, hv2]),
        if_neg (by simp [hm1]), if_neg (by simp [hm2])]
    exact List.mem_append_right _ hv
  · exact adjacentPairEmit_skip inp offDates prefSyms w st.sid d1 d2

/-- Witness for C4 on exC4w (no calendar dates): the Off-Off penalty with
the adjacent_conflict weight is emitted for the pair (1, 2). -/
theorem adjacent_pairs_amended_witness :
    (⟨AuxId.patXX 1 1, 30⟩ : Viol) ∈
      (adjacentPass exC4w (compileCore exC4w).offDates
        (compileCore exC4w).prefSymbols 30).viols := by
  have h := (adjacent_pairs_amended exC4w (compileCore exC4w).offDates
      (compileCore exC4w).prefSymbols 30 ⟨1, "R", none, none⟩ 1 2
      (by decide) (by decide) (by decide) (by decide)).1 ⟨by decide, by decide⟩
  exact h ⟨AuxId.patXX 1 1, 30⟩ (by decide)

/-! ## Membership lemmas for the core passes -/

theorem not_mem_of_contains_false {l : List Nat} {x : Nat}
    (h : l.contains x = false) : x ∉ l := by
  simpa using h

theorem compileCore_offDates (inp : SchedInput) :
    (compileCore inp).offDates = (calendarPass inp).offDates := rfl

theorem compileCore_slots (inp : SchedInput) :
    (compileCore inp).slots = (backupPass inp (calendarPass inp).offDates).slots := rfl

theorem compileCore_prefSymbols (inp : SchedInput) :
    (compileCore inp).prefSymbols = (prefillItems inp).map (fun it => it.2) := rfl

theorem core_mem_of_basic {inp : SchedInput} {c : Constr}
    (h : c ∈ basicPass inp) : c ∈ (compileCore inp).hards :=
  List.mem_append_left _ (List.mem_append_left _ (List.mem_append_left _ h))

theorem core_mem_of_prefill {inp : SchedInput} {c : Constr}
    (h : c ∈ (prefillItems inp).map (fun it => it.1)) : c ∈ (compileCore inp).hards :=
  List.mem_append_left _ (List.mem_append_left _ (List.mem_append_right _ h))

theorem core_mem_of_cal {inp : SchedInput} {c : Constr}
    (h : c ∈ (calendarPass inp).hards) : c ∈ (compileCore inp).hards :=
  List.mem_append_left _ (List.mem_append_right _ h)

theorem core_mem_of_backup {inp : SchedInput} {c : Constr}
    (h : c ∈ (backupPass inp (calendarPass inp).offDates).hards) :
    c ∈ (compileCore inp).hards :=
  List.mem_append_right _ h

theorem core_viol_of_cal {inp : SchedInput} {v : Viol}
    (h : v ∈ (calendarPass inp).viols) : v ∈ (compileCore inp).viols :=
  List.mem_append_left _ h

/-- A shift variable exists only for horizon dates. -/
theorem contains_of_hasShiftVar {inp : SchedInput} {sid d : Nat}
    (h : hasShiftVar inp sid d = true) : inp.dates.contains d = true := by
  unfold hasShiftVar at h
  rw [Bool.and_eq_true] at h
  exact h.1

/-- The exactly-one constraint of any (staff, date) with a shift variable
is in the basic pass. -/
theorem basic_mem {inp : SchedInput} {sid d : Nat}
    (hvar : hasShiftVar inp sid d = true) :
    Constr.exactlyOne sid d ∈ basicPass inp := by
  unfold hasShiftVar at hvar
  rw [Bool.and_eq_true] at hvar
  rcases hvar with ⟨hd, hmatch⟩
  rcases hfind : inp.staff.find? (fun st => st.sid == sid) with _ | st1
  · rw [hfind] at hmatch; cases hmatch
  · rw [hfind] at hmatch
    have hworks : worksOnDate st1.startP st1.endP d = true := hmatch
    have hst1 : st1 ∈ inp.staff := List.mem_of_find?_eq_some hfind
    have hsid : st1.sid = sid := by
      have := List.find?_some hfind
      simpa using this
    rw [← hsid]
    refine List.mem_flatMap.mpr ⟨st1, hst1, ?_⟩
    refine List.mem_filterMap.mpr ⟨d, by simpa using hd, ?_⟩
    simp [hworks]

/-- Under the exactly-one constraint, a cell with the Off kind selected
has no other kind selected. -/
theorem off_unique {a : Assign} {aux : AuxAssign} {sid d : Nat}
    (hone : satC a aux (Constr.exactlyOne sid d) = true)
    (hoff : a sid d .off = true) :
    a sid d .work = false ∧ a sid d .early = false ∧ a sid d .late = false := by
  simp only [satC, shiftCount, hoff, beq_iff_eq] at hone
  cases hw : a sid d .work <;> cases he : a sid d .early <;> cases hl : a sid d .late <;>
    simp_all

/-- Membership lift from one calendar rule to the calendar pass. -/
theorem cal_hards_mem {inp : SchedInput} {d : Nat} {r : CalRule} {c : Constr}
    (hmem : (d, r) ∈ inp.calendarRules)
    (hc : c ∈ (calendarDateOut inp d r).hards) : c ∈ (calendarPass inp).hards :=
  List.mem_flatMap.mpr ⟨(d, r), hmem, hc⟩

theorem cal_viols_mem {inp : SchedInput} {d : Nat} {r : CalRule} {v : Viol}
    (hmem : (d, r) ∈ inp.calendarRules)
    (hv : v ∈ (calendarDateOut inp d r).viols) : v ∈ (calendarPass inp).viols :=
  List.mem_flatMap.mpr ⟨(d, r), hmem, hv⟩

/-- A must_day_off date inside the horizon lands in calendar_off_dates. -/
theorem cal_offDate_mem {inp : SchedInput} {d : Nat} {r : CalRule}
    (hmem : (d, r) ∈ inp.calendarRules) (hoff : r.mustDayOff = true)
    (hcont : inp.dates.contains d = true) :
    (calendarPass inp).offDates.contains d = true := by
  have hmemd : d ∈ inp.dates := by simpa using hcont
  rw [contains_true_iff]
  refine List.mem_flatMap.mpr ⟨(d, r), hmem, ?_⟩
  unfold calendarDateOut
  rw [if_neg (by simp [hmemd]), if_pos hoff]
  simp

/-- On a must_day_off date, a staff member with a shift variable and no
early-shift preference receives the hard Off equality. -/
theorem calendar_dateOut_off_mem {inp : SchedInput} {st : Staff} {d : Nat} {r : CalRule}
    (hoff : r.mustDayOff = true) (hvar : hasShiftVar inp st.sid d = true)
    (hst : st ∈ inp.staff)
    (hpref : hasEarlyPref inp.earlyPrefs st.sid d = false) :
    hardEq st.sid d .off true ∈ (calendarDateOut inp d r).hards := by
  have hmemd : d ∈ inp.dates := by simpa using contains_of_hasShiftVar hvar
  unfold calendarDateOut
  rw [if_neg (by simp [hmemd]), if_pos hoff]
  refine List.mem_append_right _ ?_
  refine List.mem_map_of_mem _ ?_
  exact List.mem_filter.mpr ⟨List.mem_filter.mpr ⟨hst, hvar⟩, by simp [hpref]⟩

/-- On a must_day_off date, a staff member with a shift variable and an
early-shift preference receives the weight-1000 not-early indicator and
its two defining reified constraints. -/
theorem calendar_dateOut_pref_mem {inp : SchedInput} {st : Staff} {d : Nat} {r : CalRule}
    (hoff : r.mustDayOff = true) (hvar : hasShiftVar inp st.sid d = true)
    (hst : st ∈ inp.staff)
    (hpref : hasEarlyPref inp.earlyPrefs st.sid d = true) :
    Viol.mk (.notEarly st.sid d) 1000 ∈ (calendarDateOut inp d r).viols ∧
    Constr.impC [.auxL (.notEarly st.sid d) true] (.shiftL st.sid d .early false) ∈
      (calendarDateOut inp d r).hards ∧
    Constr.impC [.auxL (.notEarly st.sid d) false] (.shiftL st.sid d .early true) ∈
      (calendarDateOut inp d r).hards := by
  have hmemd : d ∈ inp.dates := by simpa using contains_of_hasShiftVar hvar
  have hin : st ∈ (inp.staff.filter (fun s0 => hasShiftVar inp s0.sid d)).filter
      (fun s0 => hasEarlyPref inp.earlyPrefs s0.sid d) :=
    List.mem_filter.mpr ⟨List.mem_filter.mpr ⟨hst, hvar⟩, hpref⟩
  unfold calendarDateOut
  rw [if_neg (by simp [hmemd]), if_pos hoff]
  refine ⟨List.mem_map_of_mem _ hin, ?_, ?_⟩ <;>
    exact List.mem_append_left _ (List.mem_flatMap.mpr ⟨st, hin, by simp⟩)

/-- Shape of a processed pre-filled cell. -/
theorem prefillCell_shape {inp : SchedInput} {sid : Nat} {cell : Nat × String}
    {x : Constr × ((Nat × Nat) × String)}
    (h : prefillCell inp sid cell = some x) :
    x.1 = hardEq x.2.1.1 x.2.1.2 ((SYMBOL_TO_SHIFT x.2.2).getD .work) true ∧
    x.2.1.1 = sid := by
  unfold prefillCell at h
  split at h
  · cases h
  · split at h
    · cases h
    · split at h
      · cases h
      · cases h
        exact ⟨rfl, rfl⟩

/-- Every item of the pre-fill pass pairs each recorded symbol with the
hard equality on the kind that symbol decodes to. -/
theorem prefillItems_shape {inp : SchedInput} {it : Constr × ((Nat × Nat) × String)}
    (h : it ∈ prefillItems inp) :
    it.1 = hardEq it.2.1.1 it.2.1.2 ((SYMBOL_TO_SHIFT it.2.2).getD .work) true := by
  unfold prefillItems at h
  rcases List.mem_flatMap.mp h with ⟨p, _, hin⟩
  split at hin
  · cases hin
  · split at hin
    · cases hin
    · rcases List.mem_filterMap.mp hin with ⟨cell, _, hsome⟩
      exact (prefillCell_shape hsome).1

/-- A symbol recorded for (sid, d) in prefilled_symbols comes with the
hard equality on its decoded kind in the compiled constraints. -/
theorem prefSym_constraint {inp : SchedInput} {sid d : Nat} {g : String}
    (h : plookup (sid, d) (compileCore inp).prefSymbols = some g) :
    hardEq sid d ((SYMBOL_TO_SHIFT g).getD .work) true ∈ (compileCore inp).hards := by
  unfold plookup at h
  dsimp only at h
  rcases hfind : ((compileCore inp).prefSymbols).find?
      (fun p => p.1.1 == sid && p.1.2 == d) with _ | q
  · rw [hfind] at h; cases h
  · rw [hfind] at h
    have hg : q.2 = g := by simpa using h
    have hq : q ∈ (compileCore inp).prefSymbols := List.mem_of_find?_eq_some hfind
    have hpred := List.find?_some hfind
    rw [Bool.and_eq_true] at hpred
    have hs : q.1.1 = sid := by simpa using hpred.1
    have hd : q.1.2 = d := by simpa using hpred.2
    rw [compileCore_prefSymbols] at hq
    rcases List.mem_map.mp hq with ⟨it, hit, hq2⟩
    have hshape := prefillItems_shape hit
    have : it.1 ∈ (prefillItems inp).map (fun it => it.1) :=
      List.mem_map_of_mem _ hit
    rw [hshape, hq2, hs, hd, hg] at this
    exact core_mem_of_prefill this

/-- Every backup slot is recorded for a non-calendar-off date. -/
theorem backup_slot_not_off {inp : SchedInput} {offDates : List Nat}
    {sl : (Nat × Nat) × SlotTy}
    (h : sl ∈ (backupPass inp offDates).slots) :
    offDates.contains sl.1.2 = false := by
  unfold backupPass at h
  split at h
  · cases h
  · rcases List.mem_flatMap.mp h with ⟨p, _, hin⟩
    unfold backupAssignEmit at hin
    split at hin
    · cases hin
    · split at hin
      · cases hin
      · split at hin
        · cases hin
        · split at hin
          · cases hin
          · split at hin
            · cases hin
            · split at hin
              · cases hin
              · rcases List.mem_flatMap.mp hin with ⟨d, _, hsl⟩
                unfold backupDateSlot at hsl
                split at hsl
                · cases hsl
                · split at hsl
                  · cases hsl
                  · rename_i hnotoff _
                    split at hsl <;>
                    · simp only [List.mem_singleton] at hsl
                      rw [hsl]
                      simpa using hnotoff

/-- On a calendar-off date no backup slot exists, so the slot lookup of
the extractor returns none. -/
theorem slots_lookup_none {inp : SchedInput} {sid d : Nat}
    (hd : (compileCore inp).offDates.contains d = true) :
    plookup (sid, d) (compileCore inp).slots = none := by
  unfold plookup
  dsimp only
  rcases hfind : ((compileCore inp).slots).find?
      (fun p => p.1.1 == sid && p.1.2 == d) with _ | q
  · rw [hfind]
    rfl
  · exfalso
    have hq : q ∈ (compileCore inp).slots := List.mem_of_find?_eq_some hfind
    have hpred := List.find?_some hfind
    rw [Bool.and_eq_true] at hpred
    have hdd : q.1.2 = d := by simpa using hpred.2
    rw [compileCore_slots] at hq
    have hnot := backup_slot_not_off hq
    rw [hdd] at hnot
    rw [compileCore_offDates] at hd
    rw [hnot] at hd
    cases hd

/-! ## C1: calendar must_day_off compilation and output glyphs -/

/-- C1 (amended): on a must_day_off date, a staff member with a shift
variable and an early-shift preference gets the weight-1000 soft indicator
whose value is 1 exactly when the Early variable is 0; every other such
staff member gets the HARD equality Off = 1, so in every schedule
satisfying the compiled hard constraints the staff shows an Off glyph:
the canonical × unless the cell was pre-filled with an Off alias glyph,
which is echoed verbatim. -/
theorem calendar_must_day_off_amended
    (inp : SchedInput) (st : Staff) (d : Nat) (r : CalRule)
    (hmem : (d, r) ∈ inp.calendarRules) (hoff : r.mustDayOff = true)
    (hvar : hasShiftVar inp st.sid d = true) (hst : st ∈ inp.staff) :
    (hasEarlyPref inp.earlyPrefs st.sid d = true →
      Viol.mk (.notEarly st.sid d) 1000 ∈ (compileCore inp).viols ∧
      ∀ a : Assign, ∀ aux : AuxAssign,
        satAll a aux (compileCore inp).hards = true →
        (aux (.notEarly st.sid d) = true ↔ a st.sid d .early = false)) ∧
    (hasEarlyPref inp.earlyPrefs st.sid d = false →
      hardEq st.sid d .off true ∈ (compileCore inp).hards ∧
      ∀ a : Assign, ∀ aux : AuxAssign,
        satAll a aux (compileCore inp).hards = true →
        a st.sid d .off = true ∧
        ∀ g : String, extractGlyph inp (compileCore inp) a st.sid d = some g →
          (g = "×" ∨
           (plookup (st.sid, d) (compileCore inp).prefSymbols = some g ∧
            SYMBOL_TO_SHIFT g = some Shift.off))) := by
  constructor
  · intro hpref
    have hm := calendar_dateOut_pref_mem hoff hvar hst hpref
    refine ⟨core_viol_of_cal (cal_viols_mem hmem hm.1), ?_⟩
    intro a aux hsat
    have h1 := sat_of_mem hsat (core_mem_of_cal (cal_hards_mem hmem hm.2.1))
    have h2 := sat_of_mem hsat (core_mem_of_cal (cal_hards_mem hmem hm.2.2))
    constructor
    · intro hx
      cases he : a st.sid d .early
      · rfl
      · exfalso
        simp [satC, litSat, hx, he] at h1
    · intro he
      cases hx : aux (.notEarly st.sid d)
      · exfalso
        simp [satC, litSat, hx, he] at h2
      · rfl
  · intro hpref
    have hmHard := core_mem_of_cal (cal_hards_mem hmem
      (calendar_dateOut_off_mem hoff hvar hst hpref))
    refine ⟨hmHard, ?_⟩
    intro a aux hsat
    have hoffv : a st.sid d .off = true := by
      have := sat_of_mem hsat hmHard
      simpa [hardEq, satC, litSat] using this
    refine ⟨hoffv, ?_⟩
    intro g hg
    have hone := sat_of_mem hsat (core_mem_of_basic (basic_mem hvar))
    have huniq := off_unique hone hoffv
    unfold extractGlyph at hg
    rw [if_neg (by simp [hvar])] at hg
    rcases hlook : plookup (st.sid, d) (compileCore inp).prefSymbols with _ | sym
    · left
      simp only [hlook] at hg
      have hchosen : chosenShift a st.sid d = some Shift.off := by
        unfold chosenShift
        simp [List.find?, huniq.1, hoffv]
      simp only [hchosen] at hg
      have hcont : (compileCore inp).offDates.contains d = true := by
        rw [compileCore_offDates]
        exact cal_offDate_mem hmem hoff (contains_of_hasShiftVar hvar)
      rw [slots_lookup_none hcont] at hg
      exact (Option.some.inj hg).symm
    · right
      simp only [hlook] at hg
      have hgs : sym = g := Option.some.inj hg
      subst hgs
      refine ⟨rfl, ?_⟩
      have hcon := prefSym_constraint hlook
      have hk := sat_of_mem hsat hcon
      simp only [hardEq, satC, litSat, List.all_nil, Bool.not_true, Bool.false_or,
        beq_iff_eq] at hk
      rcases hdec : SYMBOL_TO_SHIFT sym with _ | k
      · rw [hdec] at hk
        simp only [Option.getD_none] at hk
        simp [huniq.1] at hk
      · rw [hdec] at hk
        simp only [Option.getD_some] at hk
        cases k
        · simp [huniq.1] at hk
        · rfl
        · simp [huniq.2.1] at hk
        · simp [huniq.2.2] at hk

/-- C1 counterexample: on the must_day_off date 5, staff 1 (employed, no
early preference) has a pre-filled cell with the Off alias x; the cell is
compiled to the HARD Off equality, a satisfying schedule exists, and the
extracted glyph is x, not the canonical ×. -/
theorem calendar_off_glyph_counterexample :
    hasShiftVar exC1 1 5 = true ∧
    hasEarlyPref exC1.earlyPrefs 1 5 = false ∧
    hardEq 1 5 .off true ∈ (compileCore exC1).hards ∧
    satAll aOff15 auxNone (compileCore exC1).hards = true ∧
    extractGlyph exC1 (compileCore exC1) aOff15 1 5 = some "x" ∧
    "x" ≠ "×" := by
  refine ⟨by decide, by decide, by decide, by decide, by decide, by decide⟩

/-- Witness for C1 on exC1w (no pre-fills): the satisfying schedule
assigns Off and the extracted glyph is the canonical ×. -/
theorem calendar_must_day_off_amended_witness :
    aOff15 1 5 Shift.off = true ∧
    extractGlyph exC1w (compileCore exC1w) aOff15 1 5 = some "×" := by
  have h := (calendar_must_day_off_amended exC1w ⟨1, "R", none, none⟩ 5 ⟨true, false⟩
    (by decide) rfl (by decide) (by decide)).2 (by decide)
  have h2 := (h.2 aOff15 auxNone (by decide)).1
  exact ⟨h2, by decide⟩

/-! ## C8: the preference toggle compares with Python == True -/

/-- C8 counterexample: a per-date early-preference entry with the Python
integer value 1 is treated as a preference (1 == True in Python), so the
staff gets the weight-1000 Early incentive and no HARD Off equality,
contrary to the claim that truthy non-booleans such as 1 are treated as
absent. -/
theorem early_pref_int_one_counterexample :
    pyTruthy (.pyint 1) = true ∧
    PyVal.pyint 1 ≠ PyVal.pybool true ∧
    hasEarlyPref exC8.earlyPrefs 1 5 = true ∧
    Viol.mk (.notEarly 1 5) 1000 ∈ (compileCore exC8).viols ∧
    hardEq 1 5 .off true ∉ (compileCore exC8).hards := by
  refine ⟨by decide, by decide, by decide, by decide, by decide⟩

/-- C8 (amended): the lookup compares the entry value with True by Python
equality, under which True and the number 1 compare equal: an entry with
value 1 is treated as a preference (weight-1000 Early incentive); only
values not numerically equal to 1 - including truthy ones such as 2 or a
non-empty string - are treated as absent, giving the HARD Off equality. -/
theorem early_pref_equality_amended
    (inp : SchedInput) (st : Staff) (d : Nat) (r : CalRule) (p : EarlyPrefs) (v : PyVal)
    (hmem : (d, r) ∈ inp.calendarRules) (hoff : r.mustDayOff = true)
    (hvar : hasShiftVar inp st.sid d = true) (hst : st ∈ inp.staff)
    (hp : alookup st.sid inp.earlyPrefs = some p)
    (hv : alookup d p.perDate = some v) :
    (pyEqTrue v = true →
      Viol.mk (.notEarly st.sid d) 1000 ∈ (compileCore inp).viols) ∧
    (pyEqTrue v = false →
      hardEq st.sid d .off true ∈ (compileCore inp).hards) ∧
    pyEqTrue (.pyint 1) = true ∧
    pyEqTrue (.pyint 2) = false ∧
    pyEqTrue (.pystr "true") = false ∧
    pyTruthy (.pyint 2) = true ∧
    pyTruthy (.pystr "true") = true ∧
    (∀ u : PyVal, pyEqTrue u = true → u = .pybool true ∨ u = .pyint 1) := by
  have hpref : hasEarlyPref inp.earlyPrefs st.sid d = pyEqTrue v := by
    simp only [hasEarlyPref, hp, hv]
  refine ⟨?_, ?_, by decide, by decide, by decide, by decide, by decide, ?_⟩
  · intro heq
    have hpt : hasEarlyPref inp.earlyPrefs st.sid d = true := by rw [hpref, heq]
    exact core_viol_of_cal (cal_viols_mem hmem
      (calendar_dateOut_pref_mem hoff hvar hst hpt).1)
  · intro heq
    have hpt : hasEarlyPref inp.earlyPrefs st.sid d = false := by rw [hpref, heq]
    exact core_mem_of_cal (cal_hards_mem hmem
      (calendar_dateOut_off_mem hoff hvar hst hpt))
  · intro u hu
    cases u with
    | pybool b =>
      left
      cases b
      · cases hu
      · rfl
    | pyint n =>
      right
      have : n = 1 := by simpa [pyEqTrue] using hu
      rw [this]
    | pystr s => cases hu

/-- Witness for C8: on exC8 (value 1) the soft incentive is emitted; on
exC8w (value the string true, truthy but not numerically 1) the HARD Off
equality is emitted. -/
theorem early_pref_equality_amended_witness :
    Viol.mk (.notEarly 1 5) 1000 ∈ (compileCore exC8).viols ∧
    hardEq 1 5 .off true ∈ (compileCore exC8w).hards := by
  have h1 := (early_pref_equality_amended exC8 ⟨1, "R", none, none⟩ 5 ⟨true, false⟩
    ⟨[(5, .pyint 1)], none⟩ (.pyint 1)
    (by decide) rfl (by decide) (by decide) rfl rfl).1 (by decide)
  have h2 := (early_pref_equality_amended exC8w ⟨1, "R", none, none⟩ 5 ⟨true, false⟩
    ⟨[(5, .pystr "true")], none⟩ (.pystr "true")
    (by decide) rfl (by decide) (by decide) rfl rfl).2.1 (by decide)
  exact ⟨h1, h2⟩

/-! ## C10: backup holiday plus HARD coverage blocks member day-offs -/

/-- C10: in HARD backup mode, on an external-calendar holiday that is not
calendar-off and on which the backup is employed, no employed member of
the covered group can have the Off kind in any assignment satisfying the
compiled hard constraints: the holiday forces the backup Off, a member Off
would force the backup to Work via the coverage implication, and the
exactly-one constraint makes both impossible. -/
theorem backup_holiday_blocks_member_off
    (inp : SchedInput) (idx : Nat) (ass : BackupAssign) (b g : Nat)
    (grp : StaffGroup) (d m : Nat)
    (henum : (idx, ass) ∈ inp.backupAssignments.enum)
    (hact : ass.isActive = true)
    (hbid : ass.staffId = some b)
    (hgid : ass.groupId = some g)
    (hbro : inp.staff.any (fun st => st.sid == b) = true)
    (hgrp : inp.staffGroups.find? (fun gr => gr.gid == g) = some grp)
    (hhard : inp.backupCoverageIsHard = true)
    (hd : d ∈ inp.dates)
    (hhol : inp.holidays.contains d = true)
    (hncal : (compileCore inp).offDates.contains d = false)
    (hbw : staffWorks inp b d = true) (hbv : hasShiftVar inp b d = true)
    (hm : m ∈ grp.members)
    (hmro : inp.staff.any (fun st => st.sid == m) = true)
    (hmw : staffWorks inp m d = true) (hmv : hasShiftVar inp m d = true)
    (a : Assign) (aux : AuxAssign)
    (hsat : satAll a aux (compileCore inp).hards = true) :
    a m d .off = false := by
  have hvm : m ∈ validMembersOf inp grp :=
    List.mem_filter.mpr ⟨hm, hmro⟩
  have hane : inp.backupAssignments ≠ [] := by
    intro h0
    rw [h0] at henum
    cases henum
  have hgne : inp.staffGroups ≠ [] := by
    intro h0
    rw [h0] at hgrp
    cases hgrp
  -- the per-date emission of this assignment is in the backup pass output
  have hemitMem : ∀ c ∈ (backupDateEmit inp (calendarPass inp).offDates true
      inp.penaltyBackupCoverage idx b (validMembersOf inp grp) d).1,
      c ∈ (backupPass inp (calendarPass inp).offDates).hards := by
    intro c hc
    unfold backupPass
    rw [if_neg (by simp [List.isEmpty_iff, hane, hgne])]
    refine List.mem_flatMap.mpr ⟨(idx, ass), henum, ?_⟩
    show c ∈ (backupAssignEmit inp (calendarPass inp).offDates
      inp.backupCoverageIsHard inp.penaltyBackupCoverage idx ass).hards
    unfold backupAssignEmit
    rw [if_neg (by simp [hact])]
    simp only [hbid]
    rw [if_neg (by simp [hbro])]
    simp only [hgid, hgrp]
    rw [if_neg (by
      simp only [List.isEmpty_iff]
      exact List.ne_nil_of_mem hvm)]
    refine List.mem_flatMap.mpr ⟨d, hd, ?_⟩
    rw [hhard]
    exact hc
  have hc2 : (calendarPass inp).offDates.contains d = false := by
    rw [← compileCore_offDates]
    exact hncal
  have hc2mem : d ∉ (calendarPass inp).offDates := by simpa using hc2
  have hedef : (backupDateEmit inp (calendarPass inp).offDates true
      inp.penaltyBackupCoverage idx b (validMembersOf inp grp) d).1 =
      Constr.maxEqOff (.anyOff idx d) d ((validMembersOf inp grp).filter
        (fun m0 => staffWorks inp m0 d && hasShiftVar inp m0 d)) ::
      ([.impC [.auxL (.anyOff idx d) true] (.shiftL b d .work true),
        .impC [.auxL (.anyOff idx d) true] (.shiftL b d .early false),
        .impC [.auxL (.anyOff idx d) true] (.shiftL b d .late false)] ++
       [hardEq b d .off true]) := by
    unfold backupDateEmit
    rw [if_neg (by simp [hc2mem]), if_neg (by simp [hbw, hbv])]
    simp only [hhol, if_true]
    rfl
  have hmax := hemitMem _ (by
    rw [hedef]
    exact List.mem_cons_self _ _)
  have himp := hemitMem (.impC [.auxL (.anyOff idx d) true] (.shiftL b d .work true))
    (by rw [hedef]; simp)
  have hhoff := hemitMem (hardEq b d .off true) (by rw [hedef]; simp)
  have sMax := sat_of_mem hsat (core_mem_of_backup hmax)
  have sImp := sat_of_mem hsat (core_mem_of_backup himp)
  have sOff := sat_of_mem hsat (core_mem_of_backup hhoff)
  have sOne := sat_of_mem hsat (core_mem_of_basic (basic_mem hbv))
  have hboff : a b d .off = true := by
    simpa [hardEq, satC, litSat] using sOff
  have huniq := off_unique sOne hboff
  by_contra hmo
  have hmo2 : a m d .off = true := by simpa using hmo
  have hmem2 : m ∈ (validMembersOf inp grp).filter
      (fun m0 => staffWorks inp m0 d && hasShiftVar inp m0 d) :=
    List.mem_filter.mpr ⟨hvm, by simp [hmw, hmv]⟩
  have hany : ((validMembersOf inp grp).filter
      (fun m0 => staffWorks inp m0 d && hasShiftVar inp m0 d)).any
      (fun m0 => a m0 d .off) = true :=
    List.any_eq_true.mpr ⟨m, hmem2, by simp [hmo2]⟩
  have hauxv : aux (.anyOff idx d) = true := by
    simp only [satC, beq_iff_eq] at sMax
    rw [sMax, hany]
  have hwork : a b d .work = true := by
    cases hwv : a b d .work
    · exfalso
      simp [satC, litSat, hauxv, hwv] at sImp
    · rfl
  rw [huniq.1] at hwork
  cases hwork

/-- Witness for C10 on exC10: in the satisfying schedule in which the
backup is Off on the holiday and the member works, the member is indeed
not Off. -/
theorem backup_holiday_blocks_member_off_witness :
    aC10 2 5 Shift.off = false := by
  exact backup_holiday_blocks_member_off exC10 0 ⟨some 1, some 10, true⟩ 1 10
    ⟨10, [2]⟩ 5 2 (by decide) rfl rfl rfl (by decide) (by decide) rfl (by decide)
    (by decide) (by decide) (by decide) (by decide) (by decide) (by decide)
    (by decide) (by decide) aC10 auxNone (by decide)

end Scheduler
